import Mathlib

/-!
Verification of the customer-record validation program `validar_dados.py`.

The program validates a batch of customer records (nome, cpf, email,
valor_contrato, idade) against a declarative schema, partitions the records
into valid and invalid sets, and formats a textual error report.

Shallow embedding conventions:
* Python `str` values are Lean `String`s (working mostly on `String.data`,
  i.e. `List Char`).  Inputs to the two scalar validators are strings, so
  `pd.isna` is `False` on them and `str(x)` is the identity; both facts are
  reflected by omitting those branches.
* Python's `str.strip()` is `pyStrip` (ASCII whitespace; the Unicode
  whitespace cases of Python are irrelevant to every claim considered).
* The regex `\D` (non-digit) is modelled by `Char.isDigit` (ASCII digits);
  `int(c)` on a digit character is `valorDigito`.
* The regex match of `validar_email_individual` is embedded by an explicit
  matcher; see `emailExact`/`reMatchEmail` below for the derivation from
  Python `re` semantics.
* Records are embedded post-coercion: `nome, cpf, email : String`,
  `valor_contrato : ℚ` (for `float`), `idade : ℤ` (for `int`), all columns
  non-null.  The pandera checks of the schema are embedded per column in
  `checksDoCampo`.
* The pandera lazy run (`schema.validate(df, lazy=True)` and the
  `SchemaErrors.failure_cases` frame) is embedded by `executarSchema`:
  one `Falha` per failed check, columns processed in schema declaration
  order, a schema-level failure with `index = none` (pandas `NaN`) for a
  declared column absent from the input.
-/

/-- ASCII whitespace stripped by Python's `str.strip()`. -/
def isPySpace (c : Char) : Bool :=
  c == ' ' || c == '\t' || c == '\n' || c == '\r' || c == '\x0b' || c == '\x0c'

/-- Python `str.strip()`: drop whitespace from both ends. -/
def pyStrip (l : List Char) : List Char :=
  ((l.dropWhile isPySpace).reverse.dropWhile isPySpace).reverse

/-- Python `int(c)` for a single digit character `c`. -/
def valorDigito (c : Char) : ℕ := c.toNat - '0'.toNat

/-- `_calcular_digito_verificador(cpf_parcial)`: check digit of a partial CPF,
given as the list of its digit values.  `soma` accumulates
`int(digito) * (len(cpf_parcial) + 1 - i)` over `enumerate(cpf_parcial)`. -/
def _calcular_digito_verificador (ds : List ℕ) : ℕ :=
  let soma := (ds.enum.map (fun p => p.2 * (ds.length + 1 - p.1))).sum
  let resto := soma % 11
  if resto < 2 then 0 else 11 - resto

/-- `validar_cpf_individual(cpf)` on a string input.  For a `str` argument
`pd.isna` is false and `str(cpf)` is the identity, so the null guard reduces
to the empty/`'nan'` tests on the stripped string. -/
def validar_cpf_individual (s : String) : Bool :=
  let cpf_str := pyStrip s.data
  if cpf_str = [] ∨ cpf_str = "nan".data then false
  else
    let cpf_limpo := cpf_str.filter Char.isDigit
    if cpf_limpo.length ≠ 11 then false
    else
      match cpf_limpo with
      | [] => false
      | c0 :: _ =>
        if cpf_limpo = List.replicate 11 c0 then false
        else
          let ds := cpf_limpo.map valorDigito
          if _calcular_digito_verificador (ds.take 9) ≠ ds.getD 9 0 then false
          else if _calcular_digito_verificador (ds.take 10) ≠ ds.getD 10 0 then false
          else true

/-- The digit values of a string after removing every non-digit character
(the claim's reading of `re.sub(r'\D', '', ·)` followed by `int(·)`). -/
def digitosDe (s : String) : List ℕ :=
  (s.data.filter Char.isDigit).map valorDigito

/-- The claim's check-digit formula for a length-`L` digit string: `0` when
`(Σ digit[i] * (L + 1 - i)) mod 11 < 2`, and `11` minus that remainder
otherwise. -/
def digitoEsperado (ds : List ℕ) : ℕ :=
  let resto := ((ds.enum.map fun p => p.2 * (ds.length + 1 - p.1)).sum) % 11
  if resto < 2 then 0 else 11 - resto

/-- The acceptance condition of claim C1, formalised from its words: the
input is not empty/whitespace-only, exactly 11 digits remain after removing
every non-digit character, the 11 digits are not all identical, and the
digits at indices 9 and 10 equal the check digits computed from the first
9 and first 10 digits respectively. -/
def C1Spec (s : String) : Prop :=
  pyStrip s.data ≠ [] ∧
  (digitosDe s).length = 11 ∧
  ¬(∀ d ∈ digitosDe s, d = (digitosDe s).headD 0) ∧
  (digitosDe s).getD 9 0 = digitoEsperado ((digitosDe s).take 9) ∧
  (digitosDe s).getD 10 0 = digitoEsperado ((digitosDe s).take 10)

/-- Character class `[a-zA-Z0-9._%+-]` of the email regex (local part). -/
def isLocalChar (c : Char) : Bool :=
  c.isAlphanum || c == '.' || c == '_' || c == '%' || c == '+' || c == '-'

/-- Character class `[a-zA-Z0-9.-]` of the email regex (domain part). -/
def isDomChar (c : Char) : Bool :=
  c.isAlphanum || c == '.' || c == '-'

/-- Matcher for `[a-zA-Z0-9.-]+\.[a-zA-Z]{2,}` against the whole list `r`:
`r` must split as `mid ++ '.' :: tld` with `mid` nonempty over the domain
class and `tld` of length ≥ 2, all alphabetic.  Since `tld` may not contain
a dot, only the split at the last `'.'` of `r` can succeed, which is the
split computed here (via `takeWhile` on the reversal). -/
def dominioOK (r : List Char) : Bool :=
  let revR := r.reverse
  let tldRev := revR.takeWhile (· != '.')
  if tldRev.length = r.length then false
  else
    let tld := tldRev.reverse
    let mid := (revR.drop (tldRev.length + 1)).reverse
    decide (mid ≠ []) && mid.all isDomChar && decide (2 ≤ tld.length) && tld.all Char.isAlpha

/-- Exact (fully anchored) match of `[a-zA-Z0-9._%+-]+@[a-zA-Z0-9.-]+\.[a-zA-Z]{2,}`
against the whole list `l`.  `'@'` belongs to neither character class, so the
`@` of any match is the first `'@'` of `l`: the part before it must be a
nonempty run of local characters and the rest must satisfy `dominioOK`. -/
def emailExact (l : List Char) : Bool :=
  let antes := l.takeWhile (· != '@')
  let depois := (l.dropWhile (· != '@')).drop 1
  decide (antes ≠ []) && antes.all isLocalChar && dominioOK depois

/-- Python's `$` (no `re.MULTILINE`) matches at the end of the string or just
before one final newline; no matched class of the pattern contains `'\n'`,
so `re.match(pattern, s)` succeeds iff the pattern exactly matches `s` with
at most one trailing newline removed. -/
def ajusteDolar (l : List Char) : List Char :=
  if l.getLast? = some '\n' then l.dropLast else l

/-- `bool(re.match(padrao, s))` for the email pattern of the source. -/
def reMatchEmail (l : List Char) : Bool := emailExact (ajusteDolar l)

/-- `validar_email_individual(email)` on a string input (`pd.isna` is false
and `str(email)` the identity on `str` arguments). -/
def validar_email_individual (s : String) : Bool :=
  if pyStrip s.data = [] ∨ pyStrip s.data = "nan".data then false
  else reMatchEmail s.data

/-- One validated row: the record fields after pandera's coercion
(`nome, cpf, email` to `str`, `valor_contrato` to `float`, `idade` to `int`).
Identified externally by its 0-based position in the input sequence. -/
structure Registro where
  nome : String
  cpf : String
  email : String
  valor_contrato : ℚ
  idade : ℤ
deriving DecidableEq

/-- One row of pandera's `failure_cases` frame: `index` is the failing row
label (`none`, i.e. pandas `NaN`, for schema-level errors such as a missing
column), `column` the field, `check` the check's error string, and
`failure_case` the offending value rendered as a string. -/
structure Falha where
  index : Option ℕ
  column : String
  check : String
  failure_case : Option String
deriving DecidableEq

/-- The schema's columns, in declaration order. -/
def colunasSchema : List String := ["nome", "cpf", "email", "valor_contrato", "idade"]

/-- The checks of each schema column applied to one record, returning the
error strings of the failed checks in check declaration order.  Transcribed
from the `DataFrameSchema`: `nome` has `Check.str_length(1, 255)`, `cpf` the
custom CPF check, `email` the custom email check, `valor_contrato`
`Check.greater_than_or_equal_to(0)`, and `idade` the two bound checks. -/
def checksDoCampo (c : String) (r : Registro) : List String :=
  if c = "nome" then
    if 1 ≤ r.nome.length ∧ r.nome.length ≤ 255 then [] else ["str_length(1, 255)"]
  else if c = "cpf" then
    if validar_cpf_individual r.cpf then [] else ["CPF inválido"]
  else if c = "email" then
    if validar_email_individual r.email then [] else ["Email inválido"]
  else if c = "valor_contrato" then
    if (0 : ℚ) ≤ r.valor_contrato then [] else ["Valor do contrato não pode ser negativo"]
  else if c = "idade" then
    (if (1 : ℤ) ≤ r.idade then [] else ["Idade deve ser maior ou igual a 1"]) ++
      (if r.idade ≤ 150 then [] else ["Idade deve ser menor ou igual a 100 anos"])
  else []

/-- The raw value of a column of a record, as recorded in `failure_case`. -/
def valorDoCampo (c : String) (r : Registro) : String :=
  if c = "nome" then r.nome
  else if c = "cpf" then r.cpf
  else if c = "email" then r.email
  else if c = "valor_contrato" then toString r.valor_contrato
  else if c = "idade" then toString r.idade
  else ""

/-- `schema.validate(df, lazy=True)`: the `failure_cases` of the lazy pandera
run over the rows, where `present` lists the columns of the input frame.
Columns are processed in schema declaration order; a declared column missing
from the frame yields one schema-level failure with `index = none`
(`check = "column_in_dataframe"`); a present column contributes one `Falha`
per record and failed check. -/
def executarSchema (present : List String) (rows : List Registro) : List Falha :=
  colunasSchema.flatMap fun c =>
    if c ∈ present then
      rows.enum.flatMap fun p =>
        (checksDoCampo c p.2).map fun lbl =>
          ⟨some p.1, c, lbl, some (valorDoCampo c p.2)⟩
    else
      [⟨none, c, "column_in_dataframe", some c⟩]

/-- `validar_dados` after the Excel read: validate lazily; if there are no
failures return `(df, empty)`; otherwise keep the failures with a non-null
`index` (`erros_df[erros_df['index'].notna()]`), collect their row labels
(`linhas_com_erro`) and return the rows whose label is not among them
(`df[~df.index.isin(linhas_com_erro)]`) together with the kept failures. -/
def validar_dados (present : List String) (rows : List Registro) :
    List Registro × List Falha :=
  let todas := executarSchema present rows
  if todas = [] then (rows, [])
  else
    let erros := todas.filter fun f => f.index.isSome
    let linhas := erros.map fun f => f.index.getD 0
    ((rows.enum.filter fun p => !(linhas.contains p.1)).map Prod.snd, erros)

/-- `validar_dados` on a well-formed input frame (all schema columns present). -/
def validarDadosCompleto (rows : List Registro) : List Registro × List Falha :=
  validar_dados colunasSchema rows

/-- `"=" * 80` and `"─" * 80`. -/
def linha80 (c : Char) : String := ⟨List.replicate 80 c⟩

/-- Stable ascending insertion into a sorted list of naturals. -/
def insereNat (x : ℕ) : List ℕ → List ℕ
  | [] => [x]
  | y :: ys => if x ≤ y then x :: y :: ys else y :: insereNat x ys

/-- Ascending insertion sort on naturals. -/
def ordenaNat : List ℕ → List ℕ
  | [] => []
  | x :: xs => insereNat x (ordenaNat xs)

/-- The distinct row labels of `erros` in ascending order: the group keys of
`erros.groupby('index')`.  The report is only ever called on failures with a
non-null index, so the label is read with `Option.getD`. -/
def indicesComErro (erros : List Falha) : List ℕ :=
  ordenaNat ((erros.map fun f => f.index.getD 0).dedup)

/-- The text written for one failure row of a group: `Campo`, `Erro`, and
`Valor` when `failure_case` is non-null (`pd.notna`). -/
def itemFalha (f : Falha) : String :=
  "\n  Campo: " ++ f.column ++ "\n" ++ "  Erro: " ++ f.check ++ "\n" ++
    (match f.failure_case with
     | some v => "  Valor: " ++ v ++ "\n"
     | none => "")

/-- The section written for the group of row label `i`: the `LINHA {i + 2}`
banner (`+2`: 1-based numbering plus the header row) followed by that row's
failures in their order within `erros`. -/
def secaoLinha (erros : List Falha) (i : ℕ) : String :=
  "\n" ++ linha80 '─' ++ "\n" ++ "LINHA " ++ toString (i + 2) ++ "\n" ++
    linha80 '─' ++ "\n" ++
    String.join ((erros.filter fun f => f.index.getD 0 == i).map itemFalha)

/-- The report header: banner, title, `Data/Hora` (the `datetime.now()`
reading, passed here explicitly as `agora`), and the failure count. -/
def cabecalhoRelatorio (agora : String) (total : ℕ) : String :=
  linha80 '=' ++ "\n" ++ "RELATÓRIO DE ERROS - VALIDAÇÃO DE DADOS DE CLIENTES\n" ++
    linha80 '=' ++ "\n" ++ "Data/Hora: " ++ agora ++ "\n" ++
    "Total de erros: " ++ toString total ++ "\n" ++ linha80 '=' ++ "\n\n"

/-- The per-record body of the report: one section per distinct row label in
ascending label order (`erros.groupby('index')`). -/
def corpoRelatorio (erros : List Falha) : String :=
  String.join ((indicesComErro erros).map (secaoLinha erros))

/-- The report footer. -/
def rodapeRelatorio : String :=
  "\n" ++ linha80 '=' ++ "\n" ++ "FIM DO RELATÓRIO\n" ++ linha80 '=' ++ "\n"

/-- `gerar_relatorio_erros(erros, arquivo_saida)`: the full text written to
the output file, transcribed write-by-write.  The function's Python
parameters are the failures and the output path only; the `Data/Hora` value
is obtained inside the function from `datetime.now()`, embedded here as the
explicit clock parameter `agora` (the formatted wall-clock reading at call
time). -/
def gerar_relatorio_erros (erros : List Falha) (agora : String) : String :=
  linha80 '=' ++ "\n" ++ "RELATÓRIO DE ERROS - VALIDAÇÃO DE DADOS DE CLIENTES\n" ++
    linha80 '=' ++ "\n" ++ "Data/Hora: " ++ agora ++ "\n" ++
    "Total de erros: " ++ toString erros.length ++ "\n" ++ linha80 '=' ++ "\n\n" ++
    String.join ((indicesComErro erros).map (secaoLinha erros)) ++
    "\n" ++ linha80 '=' ++ "\n" ++ "FIM DO RELATÓRIO\n" ++ linha80 '=' ++ "\n"

example : validar_cpf_individual "111.444.777-35" = true := by decide
example : validar_cpf_individual "111.111.111-11" = false := by decide
example : validar_cpf_individual "" = false := by decide
example : validar_cpf_individual "11144477734" = false := by decide
example : validar_email_individual "a@b.com" = true := by decide
example : validar_email_individual "a@b" = false := by decide
example : validar_email_individual "" = false := by decide
example : validar_email_individual "a@b.com\n" = true := by decide
example : validar_email_individual "a@b.com " = false := by decide
example : validar_email_individual " a@b.com" = false := by decide
example : validar_email_individual "a@b.c" = false := by decide
example : validar_email_individual "a.b_c%d+e-f@g-h.i.jk" = true := by decide
example :
    validarDadosCompleto
        [⟨"Ana", "111.444.777-35", "a@b.com", 10, 30⟩,
         ⟨"Bia", "111.444.777-35", "bad", 5, 40⟩,
         ⟨"Caio", "111.444.777-35", "c@d.org", 0, 150⟩] =
      ([⟨"Ana", "111.444.777-35", "a@b.com", 10, 30⟩,
        ⟨"Caio", "111.444.777-35", "c@d.org", 0, 150⟩],
       [⟨some 1, "email", "Email inválido", some "bad"⟩]) := by decide
example :
    validar_dados ["nome", "email", "valor_contrato", "idade"]
        [⟨"Ana", "", "a@b.com", 0, 30⟩] =
      ([⟨"Ana", "", "a@b.com", 0, 30⟩], []) := by decide

/-- The `valor_contrato` column's checks reduce to the single bound check. -/
lemma checksDoCampo_valor (r : Registro) :
    checksDoCampo "valor_contrato" r =
      if 0 ≤ r.valor_contrato then [] else ["Valor do contrato não pode ser negativo"] := rfl

/-- The `idade` column's checks reduce to the two bound checks. -/
lemma checksDoCampo_idade (r : Registro) :
    checksDoCampo "idade" r =
      (if (1 : ℤ) ≤ r.idade then [] else ["Idade deve ser maior ou igual a 1"]) ++
        (if r.idade ≤ 150 then [] else ["Idade deve ser menor ou igual a 100 anos"]) := rfl

/-- C6: under the schema's numeric checks, `valor_contrato` passes iff its
(coerced) decimal value is ≥ 0 and `idade` passes iff its (coerced) integer
value lies in `[1, 150]`; in particular idade 0 and 151 fail, idade 150
passes, valor_contrato `-0.01` fails and valor_contrato 0 passes. -/
theorem C6_checks_numericos :
    (∀ r : Registro,
        (checksDoCampo "valor_contrato" r = [] ↔ 0 ≤ r.valor_contrato) ∧
        (checksDoCampo "idade" r = [] ↔ 1 ≤ r.idade ∧ r.idade ≤ 150)) ∧
    checksDoCampo "idade" ⟨"A", "", "", 0, 0⟩ ≠ [] ∧
    checksDoCampo "idade" ⟨"A", "", "", 0, 151⟩ ≠ [] ∧
    checksDoCampo "idade" ⟨"A", "", "", 0, 150⟩ = [] ∧
    checksDoCampo "valor_contrato" ⟨"A", "", "", -1/100, 0⟩ ≠ [] ∧
    checksDoCampo "valor_contrato" ⟨"A", "", "", 0, 0⟩ = [] := by
  have hv : ∀ r : Registro, checksDoCampo "valor_contrato" r = [] ↔ 0 ≤ r.valor_contrato := by
    intro r
    rw [checksDoCampo_valor]
    split_ifs with h <;> simp [h]
  have hi : ∀ r : Registro, checksDoCampo "idade" r = [] ↔ 1 ≤ r.idade ∧ r.idade ≤ 150 := by
    intro r
    rw [checksDoCampo_idade]
    split_ifs with h1 h2 <;> simp_all
  refine ⟨fun r => ⟨hv r, hi r⟩, ?_, ?_, ?_, ?_, ?_⟩
  · simp [hi]
  · simp [hi]
  · simp [hi]
  · simp [hv]
    norm_num
  · simp [hv]

/-- C3: evidence of the divergence between spec and code.  On an input frame
that lacks the schema-declared `cpf` column, the lazy pandera run does record
the schema-level failure (`index = none`, `check = "column_in_dataframe"`),
but `validar_dados` filters it away with `erros_df['index'].notna()` and
returns a normal `(valid, failures)` pair in which the record counts as
valid — it does not abort. -/
theorem C3_coluna_ausente_nao_aborta :
    validar_dados ["nome", "email", "valor_contrato", "idade"]
        [⟨"Ana", "", "a@b.com", 0, 30⟩] =
      ([⟨"Ana", "", "a@b.com", 0, 30⟩], []) ∧
    (⟨none, "cpf", "column_in_dataframe", some "cpf"⟩ : Falha) ∈
      executarSchema ["nome", "email", "valor_contrato", "idade"]
        [⟨"Ana", "", "a@b.com", 0, 30⟩] := by
  constructor <;> decide

/-- Associativity of string concatenation, via the underlying lists. -/
lemma string_append_assoc (a b c : String) : a ++ b ++ c = a ++ (b ++ c) := by
  apply String.ext
  simp [String.data_append, List.append_assoc]

/-- C4 (amended): the report text decomposes as header ++ per-record body ++
footer, where body and footer are functions of the failures sequence alone;
the clock reading `agora` (the `datetime.now()` call made inside
`gerar_relatorio_erros`) appears only in the header. -/
theorem C4_relatorio_decomposicao (erros : List Falha) (agora : String) :
    gerar_relatorio_erros erros agora =
      cabecalhoRelatorio agora erros.length ++ corpoRelatorio erros ++ rodapeRelatorio := by
  simp only [gerar_relatorio_erros, cabecalhoRelatorio, corpoRelatorio, rodapeRelatorio,
    string_append_assoc]

set_option maxRecDepth 40000 in
/-- C4 counterexample to the claim as stated: with the caller-visible inputs
fixed (an empty failures sequence), the report text still differs between two
runs at different wall-clock instants, because the `Data/Hora` timestamp is
computed inside the formatter via `datetime.now()` rather than supplied by
the caller. -/
theorem C4_contraexemplo :
    gerar_relatorio_erros [] "01/01/2025 10:00:00" ≠
      gerar_relatorio_erros [] "01/01/2025 10:00:01" := by decide

/-- An element that fails the predicate survives `dropWhile`. -/
lemma mem_dropWhile_of_mem {p : α → Bool} {l : List α} {a : α}
    (h : a ∈ l) (hp : p a = false) : a ∈ l.dropWhile p := by
  induction l with
  | nil => cases h
  | cons b t ih =>
    rw [List.dropWhile_cons]
    by_cases hb : p b
    · simp only [hb, if_true]
      rcases List.mem_cons.mp h with rfl | ht
      · rw [hp] at hb; cases hb
      · exact ih ht
    · simpa [hb] using h

/-- A non-whitespace element of `l` survives `pyStrip`. -/
lemma mem_pyStrip_of_mem {l : List Char} {a : Char}
    (h : a ∈ l) (hp : isPySpace a = false) : a ∈ pyStrip l := by
  unfold pyStrip
  exact List.mem_reverse.mpr
    (mem_dropWhile_of_mem (List.mem_reverse.mpr (mem_dropWhile_of_mem h hp)) hp)

/-- `dominioOK` rejects the empty list. -/
lemma dominioOK_nil : dominioOK [] = false := rfl

/-- A list accepted by `dominioOK` ends in an alphabetic character. -/
lemma dominioOK_getLast_alpha {r : List Char} (h : dominioOK r = true) :
    ∃ c, r.getLast? = some c ∧ c.isAlpha = true := by
  unfold dominioOK at h
  by_cases hlen : (r.reverse.takeWhile (· != '.')).length = r.length
  · rw [if_pos hlen] at h; cases h
  rw [if_neg hlen] at h
  simp only [Bool.and_eq_true, decide_eq_true_eq] at h
  obtain ⟨⟨⟨-, -⟩, hTldLen⟩, hTldAlpha⟩ := h
  set tldRev := r.reverse.takeWhile (· != '.') with hTldRev
  have hTldRevNe : tldRev ≠ [] := by
    intro hnil
    rw [hnil] at hTldLen
    simp at hTldLen
  obtain ⟨c, hc⟩ : ∃ c, tldRev.head? = some c := by
    cases htl : tldRev with
    | nil => exact absurd htl hTldRevNe
    | cons x xs => exact ⟨x, rfl⟩
  have hrev : r.reverse.head? = some c := by
    cases hrr : r.reverse with
    | nil => rw [hTldRev, hrr] at hc; cases hc
    | cons x xs =>
      rw [hTldRev, hrr, List.takeWhile_cons] at hc
      by_cases hx : (x != '.') = true
      · rw [if_pos hx] at hc
        simpa using hc
      · rw [if_neg hx] at hc; cases hc
  refine ⟨c, by rw [← List.head?_reverse]; exact hrev, ?_⟩
  have hcmem : c ∈ tldRev := by
    cases htl : tldRev with
    | nil => exact absurd htl hTldRevNe
    | cons x xs =>
      rw [htl] at hc
      simp only [List.head?_cons, Option.some.injEq] at hc
      rw [← hc]
      exact List.mem_cons_self x xs
  have := List.all_eq_true.mp hTldAlpha c (List.mem_reverse.mpr hcmem)
  exact this

/-- `emailExact` rejects the empty list. -/
lemma emailExact_nil : emailExact [] = false := rfl

/-- Decomposition of a list accepted by `emailExact`: it is a nonempty run of
local characters, then `'@'`, then a nonempty domain part accepted by
`dominioOK`. -/
lemma emailExact_decomp {l : List Char} (h : emailExact l = true) :
    ∃ antes depois, l = antes ++ '@' :: depois ∧ antes ≠ [] ∧
      antes.all isLocalChar = true ∧ dominioOK depois = true := by
  unfold emailExact at h
  simp only [Bool.and_eq_true, decide_eq_true_eq] at h
  obtain ⟨⟨hne, hall⟩, hdom⟩ := h
  have hDropNe : l.dropWhile (· != '@') ≠ [] := by
    intro hnil
    rw [hnil] at hdom
    simp only [List.drop_nil] at hdom
    rw [dominioOK_nil] at hdom; cases hdom
  have hhead : ((l.dropWhile (· != '@')).head hDropNe) = '@' := by
    have := List.head_dropWhile_not (· != '@') l hDropNe
    simpa using this
  refine ⟨l.takeWhile (· != '@'), (l.dropWhile (· != '@')).tail, ?_, hne, hall, ?_⟩
  · have h2 : l.dropWhile (· != '@') = '@' :: (l.dropWhile (· != '@')).tail := by
      conv_lhs => rw [← List.head_cons_tail _ hDropNe]
      rw [hhead]
    conv_lhs => rw [← @List.takeWhile_append_dropWhile _ (· != '@') l]
    rw [← h2]
  · rw [← List.drop_one]
    exact hdom

/-- A list accepted by `emailExact` contains `'@'`. -/
lemma emailExact_mem_at {l : List Char} (h : emailExact l = true) : '@' ∈ l := by
  obtain ⟨antes, depois, rfl, -, -, -⟩ := emailExact_decomp h
  exact List.mem_append_right _ (List.mem_cons_self _ _)

/-- A list accepted by `emailExact` ends in an alphabetic character. -/
lemma emailExact_getLast_alpha {l : List Char} (h : emailExact l = true) :
    ∃ c, l.getLast? = some c ∧ c.isAlpha = true := by
  obtain ⟨antes, depois, rfl, -, -, hdom⟩ := emailExact_decomp h
  obtain ⟨c, hc, halpha⟩ := dominioOK_getLast_alpha hdom
  refine ⟨c, ?_, halpha⟩
  rw [List.getLast?_append_of_ne_nil antes (by simp)]

  have hdepNe : depois ≠ [] := by
    intro hnil
    rw [hnil, dominioOK_nil] at hdom; cases hdom
  show (['@'] ++ depois).getLast? = some c
  rw [List.getLast?_append_of_ne_nil ['@'] hdepNe]
  exact hc

/-- A list accepted by `emailExact` survives the empty/`'nan'` guard of
`validar_email_individual`: its `'@'` is neither whitespace nor a character
of `"nan"`. -/
lemma pyStrip_of_emailExact {l : List Char} (h : emailExact l = true) :
    ¬(pyStrip l = [] ∨ pyStrip l = "nan".data) := by
  have hat : '@' ∈ pyStrip l := mem_pyStrip_of_mem (emailExact_mem_at h) (by decide)
  rintro (hnil | hnan)
  · rw [hnil] at hat; cases hat
  · rw [hnan] at hat
    simp at hat

/-- C5 (amended): `validar_email_individual` rejects empty and
whitespace-only strings and otherwise accepts `s` iff the anchored pattern
`[a-zA-Z0-9._%+-]+@[a-zA-Z0-9.-]+\.[a-zA-Z]{2,}` matches the entire string
or the entire string minus a single trailing newline (the tolerance Python's
`$` anchor adds); `"a@b.com"` is accepted, `"a@b"` and `""` are rejected. -/
theorem C5_email_caracterizacao (s : String) :
    validar_email_individual s = true ↔
      (emailExact s.data = true ∨
        ∃ t : List Char, s.data = t ++ ['\n'] ∧ emailExact t = true) := by
  unfold validar_email_individual
  split_ifs with hguard
  · simp only [Bool.false_eq_true, false_iff]
    rintro (hex | ⟨t, hst, hex⟩)
    · exact pyStrip_of_emailExact hex hguard
    · have hat : '@' ∈ s.data := by
        rw [hst]; exact List.mem_append_left _ (emailExact_mem_at hex)
      have : '@' ∈ pyStrip s.data := mem_pyStrip_of_mem hat (by decide)
      rcases hguard with hnil | hnan
      · rw [hnil] at this; cases this
      · rw [hnan] at this; simp at this
  · unfold reMatchEmail ajusteDolar
    split_ifs with hlast
    · constructor
      · intro h
        exact Or.inr ⟨s.data.dropLast,
          (List.dropLast_append_getLast? '\n' hlast).symm, h⟩
      · rintro (hex | ⟨t, hst, hex⟩)
        · obtain ⟨c, hc, halpha⟩ := emailExact_getLast_alpha hex
          rw [hlast] at hc
          cases hc
          cases halpha
        · have hdl : s.data.dropLast = t := by rw [hst]; exact List.dropLast_concat
          rw [hdl]; exact hex
    · constructor
      · intro h; exact Or.inl h
      · rintro (hex | ⟨t, hst, hex⟩)
        · exact hex
        · exact absurd (by rw [hst]; exact List.getLast?_concat t) hlast

set_option maxRecDepth 4000 in
/-- C5 counterexample to the claim as stated: the claim demands that the
validator accept exactly when the entire string matches the anchored
pattern, but on `"a@b.com\n"` — whose final character belongs to no part of
the pattern — the code returns `True`, because Python's `$` also matches
just before one final newline. -/
theorem C5_contraexemplo :
    validar_email_individual "a@b.com\n" = true ∧
      emailExact ("a@b.com\n").data = false := by
  constructor <;> decide

/-- Whitespace characters fail the local-character class of the pattern. -/
lemma isPySpace_not_local {c : Char} (h : isPySpace c = true) :
    isLocalChar c = false ∧ (c == '@') = false := by
  simp only [isPySpace, Bool.or_eq_true, beq_iff_eq] at h
  rcases h with ((((rfl | rfl) | rfl) | rfl) | rfl) | rfl <;> decide

/-- Whitespace characters are not alphabetic. -/
lemma isPySpace_not_alpha {c : Char} (h : isPySpace c = true) :
    c.isAlpha = false := by
  simp only [isPySpace, Bool.or_eq_true, beq_iff_eq] at h
  rcases h with ((((rfl | rfl) | rfl) | rfl) | rfl) | rfl <;> decide

/-- `emailExact` rejects any list whose first character is outside the
local class (and is not `'@'`). -/
lemma emailExact_false_of_head {l : List Char} {c : Char} (hm : l.head? = some c)
    (hlocal : isLocalChar c = false) (hat : (c == '@') = false) :
    emailExact l = false := by
  cases l with
  | nil => cases hm
  | cons a t =>
    obtain rfl : a = c := by simpa using hm
    unfold emailExact
    have hne : (a != '@') = true := by simp [bne, hat]
    rw [List.takeWhile_cons, if_pos hne]
    simp [hlocal]

/-- `ajusteDolar` either empties the list or keeps its first element. -/
lemma head?_ajusteDolar (l : List Char) :
    ajusteDolar l = [] ∨ (ajusteDolar l).head? = l.head? := by
  unfold ajusteDolar
  split_ifs with h
  · cases l with
    | nil => exact Or.inl rfl
    | cons a t =>
      cases t with
      | nil => exact Or.inl rfl
      | cons b u => exact Or.inr (by simp)
  · exact Or.inr rfl

/-- C10 (amended): the email validator does not trim its input — a leading
whitespace character always causes rejection, and so does a trailing
whitespace character other than a newline; the sole exception forced by the
counterexample is a final `'\n'`, which Python's `$` anchor tolerates. -/
theorem C10_sem_trim (s : String) :
    (∀ c, s.data.head? = some c → isPySpace c = true →
      validar_email_individual s = false) ∧
    (∀ c, s.data.getLast? = some c → isPySpace c = true → c ≠ '\n' →
      validar_email_individual s = false) := by
  constructor
  · intro c hc hws
    unfold validar_email_individual
    split_ifs with hguard
    · rfl
    · unfold reMatchEmail
      rcases head?_ajusteDolar s.data with hnil | hhd
      · rw [hnil]; exact emailExact_nil
      · rw [hc] at hhd
        obtain ⟨hlocal, hat⟩ := isPySpace_not_local hws
        exact emailExact_false_of_head hhd hlocal hat
  · intro c hc hws hnl
    unfold validar_email_individual
    split_ifs with hguard
    · rfl
    · unfold reMatchEmail ajusteDolar
      rw [if_neg (by rw [hc]; exact fun h => hnl (Option.some.inj h))]
      cases hE : emailExact s.data with
      | false => rfl
      | true =>
        obtain ⟨d, hd, halpha⟩ := emailExact_getLast_alpha hE
        rw [hc] at hd
        cases hd
        rw [isPySpace_not_alpha hws] at halpha
        cases halpha

/-- C10 counterexample to the claim as stated: `"a@b.com\n"` ends in a
whitespace character and is not whitespace-only, yet the validator accepts
it (Python's `$` matches before the final newline). -/
theorem C10_contraexemplo :
    isPySpace '\n' = true ∧
      ("a@b.com\n").data.getLast? = some '\n' ∧
      ¬("a@b.com\n").data.all isPySpace = true ∧
      validar_email_individual "a@b.com\n" = true := by
  refine ⟨by decide, by decide, by decide, by decide⟩

/-- Witness for `C10_sem_trim`: instantiating it at `" a@b.com"` and
`"a@b.com "` shows both are rejected. -/
theorem C10_sem_trim_witness :
    validar_email_individual " a@b.com" = false ∧
      validar_email_individual "a@b.com " = false :=
  ⟨(C10_sem_trim " a@b.com").1 ' ' rfl (by decide),
   (C10_sem_trim "a@b.com ").2 ' ' (by decide) (by decide) (by decide)⟩

/-- Constructing the `Falha` recorded for a failed check of a present column:
no check evaluation is skipped, so each failed check of each present column
of each record occurs in the lazy run's failure cases. -/
lemma falha_mem_executarSchema {present : List String} {rows : List Registro}
    {c : String} {i : ℕ} {r : Registro} {lbl : String}
    (hc : c ∈ colunasSchema) (hcp : c ∈ present) (hir : (i, r) ∈ rows.enum)
    (hlbl : lbl ∈ checksDoCampo c r) :
    (⟨some i, c, lbl, some (valorDoCampo c r)⟩ : Falha) ∈
      executarSchema present rows := by
  unfold executarSchema
  rw [List.mem_flatMap]
  refine ⟨c, hc, ?_⟩
  rw [if_pos hcp, List.mem_flatMap]
  exact ⟨(i, r), hir, List.mem_map_of_mem _ hlbl⟩

/-- The failures returned by `validar_dados` are exactly the failure cases
with a non-null index, in both branches. -/
lemma snd_validar_dados (present : List String) (rows : List Registro) :
    (validar_dados present rows).2 =
      (executarSchema present rows).filter (fun f => f.index.isSome) := by
  simp only [validar_dados]
  split_ifs with h
  · rw [h]; rfl
  · rfl

/-- The valid records returned by `validar_dados` are, in both branches, the
records whose position is not the index of any returned failure. -/
lemma fst_validar_dados (present : List String) (rows : List Registro) :
    (validar_dados present rows).1 =
      (rows.enum.filter fun p =>
        !((((executarSchema present rows).filter fun f => f.index.isSome).map
            fun f => f.index.getD 0).contains p.1)).map Prod.snd := by
  simp only [validar_dados]
  split_ifs with h
  · rw [h]
    simp [List.enum_map_snd]
  · rfl

/-- A list that contains two distinct elements satisfying `p` has
`countP p` at least 2. -/
lemma two_le_countP {l : List α} {x y : α} {p : α → Bool}
    (hx : x ∈ l) (hy : y ∈ l) (hxy : x ≠ y)
    (hpx : p x = true) (hpy : p y = true) : 2 ≤ l.countP p := by
  have hxf : x ∈ l.filter p := List.mem_filter.mpr ⟨hx, hpx⟩
  have hyf : y ∈ l.filter p := List.mem_filter.mpr ⟨hy, hpy⟩
  rw [List.countP_eq_length_filter]
  rcases hf : l.filter p with - | ⟨a, - | ⟨b, t⟩⟩
  · rw [hf] at hxf; cases hxf
  · rw [hf] at hxf hyf
    simp only [List.mem_singleton] at hxf hyf
    exact absurd (hxf.trans hyf.symm) hxy
  · simp only [List.length_cons]
    omega

/-- C7: schema evaluation is exhaustive — every check of every schema column
runs on every record, so a record failing checks in two different columns
contributes at least two failures (one per column) to the failure sequence
of a single `validar_dados` run. -/
theorem C7_avaliacao_exaustiva (rows : List Registro) (i : ℕ) (r : Registro)
    (c1 c2 l1 l2 : String) (hr : rows.get? i = some r)
    (hc1 : c1 ∈ colunasSchema) (hc2 : c2 ∈ colunasSchema) (hne : c1 ≠ c2)
    (h1 : l1 ∈ checksDoCampo c1 r) (h2 : l2 ∈ checksDoCampo c2 r) :
    2 ≤ (validarDadosCompleto rows).2.countP fun f => f.index == some i := by
  have hir : (i, r) ∈ rows.enum := by
    rw [List.mem_enum_iff_getElem?]
    rw [← List.get?_eq_getElem?]
    exact hr
  have hf1 := falha_mem_executarSchema hc1 hc1 hir h1
  have hf2 := falha_mem_executarSchema hc2 hc2 hir h2
  rw [validarDadosCompleto, snd_validar_dados]
  refine two_le_countP (List.mem_filter.mpr ⟨hf1, rfl⟩)
    (List.mem_filter.mpr ⟨hf2, rfl⟩) ?_ (by simp) (by simp)
  intro h
  exact hne (congrArg Falha.column h)

/-- Witness for `C7_avaliacao_exaustiva`: a single record whose `cpf` and
`email` both fail produces at least two failures for row 0. -/
theorem C7_avaliacao_exaustiva_witness :
    2 ≤ (validarDadosCompleto [⟨"Ana", "123", "bad", 1, 30⟩]).2.countP
      fun f => f.index == some 0 :=
  C7_avaliacao_exaustiva [⟨"Ana", "123", "bad", 1, 30⟩] 0 ⟨"Ana", "123", "bad", 1, 30⟩
    "cpf" "email" "CPF inválido" "Email inválido" (by decide) (by decide) (by decide)
    (by decide) (by decide) (by decide)

/-- A record returned as valid by `validar_dados` (on a frame with all schema
columns) passes every check of every schema column. -/
lemma checks_nil_of_mem_validos {rows : List Registro} {r : Registro}
    (h : r ∈ (validarDadosCompleto rows).1) :
    ∀ c ∈ colunasSchema, checksDoCampo c r = [] := by
  rw [validarDadosCompleto, fst_validar_dados] at h
  obtain ⟨⟨i, r'⟩, hmem, rfl⟩ := List.mem_map.mp h
  obtain ⟨hin, hcond⟩ := List.mem_filter.mp hmem
  intro c hc
  by_contra hne
  obtain ⟨lbl, hlbl⟩ := List.exists_mem_of_ne_nil _ hne
  have hmemF := falha_mem_executarSchema hc hc hin hlbl
  have hidx : (i : ℕ) ∈ ((executarSchema colunasSchema rows).filter
      fun f => f.index.isSome).map fun f => f.index.getD 0 := by
    refine List.mem_map.mpr ⟨⟨some i, c, lbl, some (valorDoCampo c r')⟩, ?_, rfl⟩
    exact List.mem_filter.mpr ⟨hmemF, rfl⟩
  rw [Bool.not_eq_true'] at hcond
  have hcont : (((executarSchema colunasSchema rows).filter
      (fun f => f.index.isSome)).map (fun f => f.index.getD 0)).contains i = true := by
    simpa using hidx
  rw [hcont] at hcond
  cases hcond

/-- When every record passes every check, the lazy run over a frame with all
schema columns produces no failure cases. -/
lemma executarSchema_eq_nil {rows : List Registro}
    (h : ∀ r ∈ rows, ∀ c ∈ colunasSchema, checksDoCampo c r = []) :
    executarSchema colunasSchema rows = [] := by
  unfold executarSchema
  rw [List.flatMap_eq_nil_iff]
  intro c hc
  rw [if_pos hc, List.flatMap_eq_nil_iff]
  intro p hp
  rw [List.map_eq_nil_iff]
  refine h p.2 ?_ c hc
  have := List.mem_map_of_mem Prod.snd hp
  rwa [List.enum_map_snd] at this

/-- C8: validation is idempotent on its valid output — re-running
`validar_dados` on the valid records of a first run produces an empty
failure sequence. -/
theorem C8_idempotencia (rows : List Registro) :
    (validarDadosCompleto ((validarDadosCompleto rows).1)).2 = [] := by
  have hnil : executarSchema colunasSchema ((validarDadosCompleto rows).1) = [] :=
    executarSchema_eq_nil fun r hr => checks_nil_of_mem_validos hr
  rw [validarDadosCompleto, snd_validar_dados, hnil]
  rfl

/-- Positions in `enum` are bounded by the list length. -/
lemma fst_lt_of_mem_enum {l : List α} {p : ℕ × α} (h : p ∈ l.enum) :
    p.1 < l.length := by
  rw [List.enum_eq_zip_range] at h
  exact List.mem_range.mp (List.of_mem_zip h).1

/-- Every failure returned by `validarDadosCompleto` carries the index of an
actual input row. -/
lemma index_of_mem_erros {rows : List Registro} {f : Falha}
    (h : f ∈ (validarDadosCompleto rows).2) :
    ∃ i, f.index = some i ∧ i < rows.length := by
  rw [validarDadosCompleto, snd_validar_dados] at h
  obtain ⟨hmem, -⟩ := List.mem_filter.mp h
  unfold executarSchema at hmem
  rw [List.mem_flatMap] at hmem
  obtain ⟨c, hc, hmem⟩ := hmem
  rw [if_pos hc, List.mem_flatMap] at hmem
  obtain ⟨q, hq, hmem⟩ := hmem
  obtain ⟨lbl, -, rfl⟩ := List.mem_map.mp hmem
  exact ⟨q.1, rfl, fst_lt_of_mem_enum hq⟩

/-- Filtering a zipped enumeration on the first component has the same
length as filtering the index list. -/
lemma length_filter_zip (q : ℕ → Bool) :
    ∀ (as : List ℕ) (bs : List β), as.length = bs.length →
      ((as.zip bs).filter fun p => q p.1).length = (as.filter q).length := by
  intro as
  induction as with
  | nil => intro bs h; simp
  | cons a t ih =>
    intro bs h
    cases bs with
    | nil => cases h
    | cons b u =>
      have h' : t.length = u.length := by simpa using h
      by_cases hq : q a = true
      · simp [hq, ih u h']
      · have hq2 : q a = false := Bool.eq_false_iff.mpr hq
        simp [hq2, ih u h']

/-- C2: `validar_dados` partitions its input.  The valid records are exactly
the input records whose position indexes no returned failure, kept in input
order, and the number of valid records plus the number of distinct row
indices among the failures is the number of input records. -/
theorem C2_particao (rows : List Registro) :
    (validarDadosCompleto rows).1 =
      (rows.enum.filter fun p =>
        decide (∀ f ∈ (validarDadosCompleto rows).2, f.index ≠ some p.1)).map
        Prod.snd ∧
    (validarDadosCompleto rows).1.length +
      (((validarDadosCompleto rows).2.map fun f => f.index.getD 0).dedup).length =
      rows.length := by
  have hidx : ∀ f ∈ (validarDadosCompleto rows).2,
      ∃ i, f.index = some i ∧ i < rows.length := fun f hf => index_of_mem_erros hf
  set E := (validarDadosCompleto rows).2 with hE
  set S := E.map (fun f => f.index.getD 0) with hS
  have hcontS : ∀ j : ℕ, S.contains j = true ↔ ∃ f ∈ E, f.index = some j := by
    intro j
    constructor
    · intro h
      have hj : j ∈ S := by simpa using h
      rw [hS] at hj
      obtain ⟨f, hf, hfj⟩ := List.mem_map.mp hj
      obtain ⟨i, hfi, -⟩ := hidx f hf
      refine ⟨f, hf, ?_⟩
      rw [hfi] at hfj ⊢
      simp only [Option.getD_some] at hfj
      rw [hfj]
    · rintro ⟨f, hf, hfi⟩
      have hj : j ∈ S := by
        rw [hS]
        exact List.mem_map.mpr ⟨f, hf, by rw [hfi]; rfl⟩
      simpa using hj
  have hSrw : ((executarSchema colunasSchema rows).filter
      (fun f => f.index.isSome)).map (fun f => f.index.getD 0) = S := by
    rw [hS, hE, validarDadosCompleto, snd_validar_dados]
  have hcond : ∀ p : ℕ × Registro, p ∈ rows.enum →
      (!(S.contains p.1)) = decide (∀ f ∈ E, f.index ≠ some p.1) := by
    intro p hp
    by_cases hm : S.contains p.1 = true
    · rw [hm]
      obtain ⟨f, hf, hfi⟩ := (hcontS p.1).mp hm
      have hnall : ¬(∀ f ∈ E, f.index ≠ some p.1) := fun hall => hall f hf hfi
      simp [hnall]
    · have hm' : S.contains p.1 = false := Bool.eq_false_iff.mpr hm
      rw [hm']
      have hall : ∀ f ∈ E, f.index ≠ some p.1 := by
        intro f hf hfi
        exact hm ((hcontS p.1).mpr ⟨f, hf, hfi⟩)
      simp only [Bool.not_false]
      exact (decide_eq_true hall).symm
  constructor
  · rw [validarDadosCompleto, fst_validar_dados, hSrw]
    exact congrArg (List.map Prod.snd) (List.filter_congr hcond)
  · rw [validarDadosCompleto, fst_validar_dados, hSrw, List.length_map]
    have hA : ((rows.enum.filter fun p => !(S.contains p.1)).length =
        ((List.range rows.length).filter fun i => !(S.contains i)).length) := by
      rw [List.enum_eq_zip_range]
      simpa using length_filter_zip (fun i => !(S.contains i))
        (List.range rows.length) rows (by simp)
    have hsum : rows.length =
        ((List.range rows.length).filter fun i => S.contains i).length +
          ((List.range rows.length).filter fun i => !(S.contains i)).length := by
      simpa using List.length_eq_length_filter_add
        (l := List.range rows.length) (fun i => S.contains i)
    have hnodup1 : ((List.range rows.length).filter fun i => S.contains i).Nodup :=
      (List.nodup_range _).filter _
    have hperm : List.Perm
        ((List.range rows.length).filter fun i => S.contains i) S.dedup := by
      rw [List.perm_ext_iff_of_nodup hnodup1 (List.nodup_dedup S)]
      intro j
      rw [List.mem_filter, List.mem_range, List.mem_dedup]
      constructor
      · rintro ⟨-, hj⟩
        simpa using hj
      · intro hj
        have hcont : S.contains j = true := by simpa using hj
        obtain ⟨f, hf, hfi⟩ := (hcontS j).mp hcont
        obtain ⟨i, hfi2, hilt⟩ := hidx f hf
        rw [hfi2] at hfi
        obtain rfl : i = j := Option.some.inj hfi
        exact ⟨hilt, hcont⟩
    rw [hA, ← hperm.length_eq]
    omega

/-- Dropping a prefix of elements that all fail `p` leaves `filter p`
unchanged. -/
lemma filter_dropWhile_of_imp {p q : α → Bool} (h : ∀ a, q a = true → p a = false) :
    ∀ l : List α, (l.dropWhile q).filter p = l.filter p := by
  intro l
  induction l with
  | nil => rfl
  | cons a t ih =>
    rw [List.dropWhile_cons]
    by_cases hq : q a = true
    · rw [if_pos hq, ih]
      simp [List.filter_cons, h a hq]
    · rw [if_neg hq]

/-- Whitespace characters are not digits. -/
lemma isPySpace_not_digit {c : Char} (h : isPySpace c = true) : c.isDigit = false := by
  simp only [isPySpace, Bool.or_eq_true, beq_iff_eq] at h
  rcases h with ((((rfl | rfl) | rfl) | rfl) | rfl) | rfl <;> decide

/-- `strip` only removes whitespace, so the digits of the stripped string are
the digits of the original string. -/
lemma filter_digit_pyStrip (l : List Char) :
    (pyStrip l).filter Char.isDigit = l.filter Char.isDigit := by
  unfold pyStrip
  simp only [List.filter_reverse,
    filter_dropWhile_of_imp (fun c h => isPySpace_not_digit h), List.reverse_reverse]

/-- `valorDigito` is injective on digit characters. -/
lemma char_eq_of_valorDigito_eq {c d : Char} (hc : c.isDigit = true)
    (hd : d.isDigit = true) (h : valorDigito c = valorDigito d) : c = d := by
  unfold valorDigito at h
  simp [Char.isDigit] at hc hd
  have hc1 : 48 ≤ c.toNat := hc.1
  have hd1 : 48 ≤ d.toNat := hd.1
  have h0 : '0'.toNat = 48 := rfl
  rw [h0] at h
  have htoNat : c.toNat = d.toNat := by omega
  calc c = Char.ofNat c.toNat := (Char.ofNat_toNat c).symm
    _ = Char.ofNat d.toNat := by rw [htoNat]
    _ = d := Char.ofNat_toNat d

/-- The code's check and the claim's formula are the same function. -/
lemma digitoEsperado_eq (ds : List ℕ) :
    _calcular_digito_verificador ds = digitoEsperado ds := rfl

/-- For a length-11 digit string, "all characters equal the first" and "all
digit values equal the first value" coincide. -/
lemma replicate_iff_valores {c0 : Char} {rest : List Char}
    (hdig : ∀ c ∈ c0 :: rest, c.isDigit = true)
    (hlen : (c0 :: rest).length = 11) :
    c0 :: rest = List.replicate 11 c0 ↔
      ∀ d ∈ (c0 :: rest).map valorDigito,
        d = ((c0 :: rest).map valorDigito).headD 0 := by
  have hhead : ((c0 :: rest).map valorDigito).headD 0 = valorDigito c0 := rfl
  rw [hhead]
  constructor
  · intro h d hd
    rw [h, List.map_replicate] at hd
    exact List.eq_of_mem_replicate hd
  · intro h
    rw [List.eq_replicate_iff]
    refine ⟨hlen, fun b hb => ?_⟩
    exact char_eq_of_valorDigito_eq (hdig b hb) (hdig c0 (List.mem_cons_self _ _))
      (h (valorDigito b) (List.mem_map_of_mem _ hb))

/-- C1: `validar_cpf_individual` returns a boolean (it is total on strings)
and accepts exactly the strings described by the claim: not
empty/whitespace-only, exactly 11 digits after removing non-digit
characters, digits not all identical, and both check digits correct under
the mod-11 weighted-sum formula. -/
theorem C1_cpf_caracterizacao (s : String) :
    validar_cpf_individual s = true ↔ C1Spec s := by
  by_cases hguard : pyStrip s.data = [] ∨ pyStrip s.data = "nan".data
  · have hv : validar_cpf_individual s = false := by
      show (if pyStrip s.data = [] ∨ pyStrip s.data = "nan".data then false
        else
          if ((pyStrip s.data).filter Char.isDigit).length ≠ 11 then false
          else
            match (pyStrip s.data).filter Char.isDigit with
            | [] => false
            | c0 :: _ =>
              if (pyStrip s.data).filter Char.isDigit = List.replicate 11 c0 then false
              else
                if _calcular_digito_verificador
                    ((((pyStrip s.data).filter Char.isDigit).map valorDigito).take 9) ≠
                    (((pyStrip s.data).filter Char.isDigit).map valorDigito).getD 9 0 then
                  false
                else
                  if _calcular_digito_verificador
                      ((((pyStrip s.data).filter Char.isDigit).map valorDigito).take 10) ≠
                      (((pyStrip s.data).filter Char.isDigit).map valorDigito).getD 10 0 then
                    false
                  else true) = false
      rw [if_pos hguard]
    rw [hv]
    simp only [Bool.false_eq_true, false_iff]
    rintro ⟨h1, h2, -⟩
    rcases hguard with hnil | hnan
    · exact h1 hnil
    · unfold digitosDe at h2
      rw [← filter_digit_pyStrip, hnan] at h2
      simp at h2
  · have hv : validar_cpf_individual s =
        (if ((pyStrip s.data).filter Char.isDigit).length ≠ 11 then false
         else
           match (pyStrip s.data).filter Char.isDigit with
           | [] => false
           | c0 :: _ =>
             if (pyStrip s.data).filter Char.isDigit = List.replicate 11 c0 then false
             else
               if _calcular_digito_verificador
                   ((((pyStrip s.data).filter Char.isDigit).map valorDigito).take 9) ≠
                   (((pyStrip s.data).filter Char.isDigit).map valorDigito).getD 9 0 then
                 false
               else
                 if _calcular_digito_verificador
                     ((((pyStrip s.data).filter Char.isDigit).map valorDigito).take 10) ≠
                     (((pyStrip s.data).filter Char.isDigit).map valorDigito).getD 10 0 then
                   false
                 else true) := by
      show (if pyStrip s.data = [] ∨ pyStrip s.data = "nan".data then false else _) = _
      rw [if_neg hguard]
    rw [hv, filter_digit_pyStrip]
    unfold C1Spec digitosDe
    have hs1 : pyStrip s.data ≠ [] := fun h => hguard (Or.inl h)
    by_cases hlen : (s.data.filter Char.isDigit).length = 11
    · obtain ⟨c0, rest, hD⟩ : ∃ c0 rest, s.data.filter Char.isDigit = c0 :: rest := by
        cases hcase : s.data.filter Char.isDigit with
        | nil => rw [hcase] at hlen; cases hlen
        | cons x xs => exact ⟨x, xs, rfl⟩
      have hdig : ∀ c ∈ c0 :: rest, c.isDigit = true := by
        intro c hc
        exact List.of_mem_filter (hD ▸ hc : c ∈ s.data.filter Char.isDigit)
      rw [hD] at hlen
      rw [hD, if_neg (by rw [hlen]; omega)]
      show (if c0 :: rest = List.replicate 11 c0 then false
        else
          if _calcular_digito_verificador (((c0 :: rest).map valorDigito).take 9) ≠
              ((c0 :: rest).map valorDigito).getD 9 0 then false
          else
            if _calcular_digito_verificador (((c0 :: rest).map valorDigito).take 10) ≠
                ((c0 :: rest).map valorDigito).getD 10 0 then false
            else true) = true ↔ _
      rw [digitoEsperado_eq, digitoEsperado_eq]
      constructor
      · intro hL
        split_ifs at hL with h1 h2 h3
        try cases hL
        have h4 := not_not.mp h2
        have h5 := not_not.mp h3
        refine ⟨hs1, by rw [List.length_map]; exact hlen, ?_, h4.symm, h5.symm⟩
        rw [← replicate_iff_valores hdig hlen]
        exact h1
      · rintro ⟨-, -, hna, h4, h5⟩
        rw [if_neg, if_neg, if_neg]
        · intro hne
          exact hne h5.symm
        · intro hne
          exact hne h4.symm
        · rw [replicate_iff_valores hdig hlen]
          exact hna
    · rw [if_pos (by simpa using hlen)]
      simp only [Bool.false_eq_true, false_iff]
      rintro ⟨-, h2, -⟩
      rw [List.length_map] at h2
      exact hlen h2
